import Mathlib

/-!
Verification of the RingApp backend conversation turn-state machine.

This file shallowly embeds the turn-handling logic of `app.py` and the
scenario-key resolution of `scenarios.py`:

* a `Turn` mirrors the per-turn document pushed onto the `conversation`
  array (`turn`, `user_text`, `ai_text`; timestamps are out of scope);
* `start_call` models the session-creation path of the `/start_call`
  handler after user validation (the conversation document plus the
  first pushed AI turn);
* `process_audio` models the `/process_audio` handler: transcription,
  the positional `$set` of `user_text` on the latest turn, the anomaly
  branch, the unconditional `$push` of the next AI turn, and the TTS
  step, with each external-provider call abstracted as an
  `Except String String` argument (`.error e` = the provider raised);
* `extract_user_utterances` models `_extract_user_utterances`;
* `find_scenario_key_by_title` models the function of the same name,
  with the `random.choice` draw abstracted by a numeric `pick`;
* `end_call` models the feedback-wrapping and response-building tail of
  the `/end_call` handler over a small JSON value type.
-/

namespace RingApp

/-- One element of the `conversation` array: the fields the code writes.
`user_text`/`ai_text` are `Option` because the code stores JSON `null`
(`None`) for an absent utterance. -/
structure Turn where
  turn : Nat
  user_text : Option String
  ai_text : Option String
deriving Repr, DecidableEq

/-- Python truthiness of an optional string: `None` and `""` are falsy. -/
def optTruthy : Option String → Bool
  | none => false
  | some s => s != ""

/-- Model of `generate_ai_text` (app.py): on success, strip the reply and replace an
empty reply with a fixed clarification line; on an exception `e`, return the
string `f"(Gemini error: {e})"` instead of failing. -/
def generate_ai_text (resp : Except String String) : String :=
  match resp with
  | .error e => "(Gemini error: " ++ e ++ ")"
  | .ok t =>
      let t' := t.trim
      if t' = "" then "I couldn’t quite hear that. Could you say it again, briefly?" else t'

/-- Model of `gemini_opening_for_scenario` (scenarios.py): strip the reply, fall back
to a fixed opener when empty, and on an exception return an error-marker
string rather than failing. -/
def gemini_opening_for_scenario (resp : Except String String) : String :=
  match resp with
  | .error e => "(Gemini error creating opener: " ++ e ++ ")"
  | .ok t => if t.trim = "" then "Let\x27s begin. What’s happening around you?" else t.trim

/-- The conversation array produced by `/start_call` after user validation:
the document is created with `conversation: []` and then turn 0 is pushed
with the opener as `ai_text` and `user_text: None`. -/
def start_call (openerResp : Except String String) : List Turn :=
  [{ turn := 0, user_text := none, ai_text := some (gemini_opening_for_scenario openerResp) }]

/-- The MongoDB positional update
`{"conversation.turn": t}, {"$set": {"conversation.$.user_text": u}}`:
set `user_text` on the FIRST array element whose `turn` equals `t`. -/
def setUserAtFirst : List Turn → Nat → String → List Turn
  | [], _, _ => []
  | x :: xs, t, u =>
      if x.turn = t then { x with user_text := some u } :: xs
      else x :: setUserAtFirst xs t u

/-- The turn pushed at the end of `/process_audio`. -/
def newAiTurn (n : Nat) (ai : String) : Turn :=
  { turn := n, user_text := none, ai_text := some ai }

/-- How a `/process_audio` request can fail. -/
inductive AudioError
  | transcriptionFailed (msg : String)
  | indexError
  | ttsFailed (msg : String)
deriving Repr, DecidableEq

/-- Outcome of one `/process_audio` request: the conversation array as
persisted when the request finishes (successfully or not), whether the
turn-order anomaly was flagged (the `print` in the `else` branch), and
either the 200 payload `(user_text, ai_text, audio)` or the error. -/
structure AudioOutcome where
  conversation : List Turn
  anomalyFlagged : Bool
  result : Except AudioError (String × String × String)
deriving Repr

/-- The `/process_audio` handler on an existing conversation `conv`.
`stt` is the result of `transcribe_audio_stt` (raises = `.error`),
`gem` the raw Gemini reply fed to `generate_ai_text`, and `tts` the
ElevenLabs call. Order follows the code: transcription happens before
the unguarded `conversation["conversation"][-1]` access; the `$set`
runs only when the latest turn is open; the `$push` of the next AI turn
is unconditional; TTS failure comes after both writes. -/
def process_audio (conv : List Turn) (stt : Except String String)
    (gem : Except String String) (tts : Except String String) : AudioOutcome :=
  match stt with
  | .error e =>
      { conversation := conv, anomalyFlagged := false
        result := .error (.transcriptionFailed e) }
  | .ok user_response =>
      match conv.getLast? with
      | none =>
          { conversation := conv, anomalyFlagged := false
            result := .error .indexError }
      | some last =>
          let isOpen := optTruthy last.ai_text && (last.user_text == none)
          let conv1 := if isOpen then setUserAtFirst conv last.turn user_response else conv
          let ai := generate_ai_text gem
          let conv2 := conv1 ++ [newAiTurn (last.turn + 1) ai]
          match tts with
          | .error e =>
              { conversation := conv2, anomalyFlagged := !isOpen
                result := .error (.ttsFailed e) }
          | .ok b =>
              { conversation := conv2, anomalyFlagged := !isOpen
                result := .ok (user_response, ai, b) }

/-! ### Basic facts about the provider-text helpers -/

theorem generate_ai_text_ne_empty (resp : Except String String) :
    generate_ai_text resp ≠ "" := by
  cases resp with
  | error e =>
      intro h
      have h2 := congrArg String.length h
      simp [generate_ai_text, String.length_append] at h2
      exact absurd h2.2 (by decide)
  | ok t =>
      simp only [generate_ai_text]
      split
      · intro h
        have h2 := congrArg String.length h
        simp at h2
        exact absurd h2 (by decide)
      · exact fun h => by simp_all

theorem gemini_opening_ne_empty (resp : Except String String) :
    gemini_opening_for_scenario resp ≠ "" := by
  cases resp with
  | error e =>
      intro h
      have h2 := congrArg String.length h
      simp [gemini_opening_for_scenario, String.length_append] at h2
      exact absurd h2.2 (by decide)
  | ok t =>
      simp only [gemini_opening_for_scenario]
      split
      · intro h
        have h2 := congrArg String.length h
        simp at h2
        exact absurd h2 (by decide)
      · exact fun h => by simp_all

/-! ### The single-open-turn invariant -/

/-- Structural invariant of a reachable conversation array: it splits as
`front ++ [last]` where every earlier turn is closed and has a smaller
turn number, while the final turn is open with a truthy `ai_text`. -/
def goodConv (conv : List Turn) : Prop :=
  ∃ front last, conv = front ++ [last] ∧
    (∀ x ∈ front, x.user_text ≠ none ∧ x.turn < last.turn) ∧
    last.user_text = none ∧ optTruthy last.ai_text = true

/-- Conversation states reachable from `start_call` by any sequence of
`process_audio` requests, with arbitrary provider outcomes at each step
(this covers, in particular, every success-path sequence). -/
inductive Reachable : List Turn → Prop
  | start (openerResp : Except String String) : Reachable (start_call openerResp)
  | step (conv : List Turn) (stt gem tts : Except String String) :
      Reachable conv → Reachable (process_audio conv stt gem tts).conversation

theorem setUserAtFirst_append_notMem (front l2 : List Turn) (t : Nat) (u : String)
    (h : ∀ x ∈ front, x.turn ≠ t) :
    setUserAtFirst (front ++ l2) t u = front ++ setUserAtFirst l2 t u := by
  induction front with
  | nil => rfl
  | cons x xs ih =>
      have h1 : ¬ x.turn = t := h x (List.mem_cons_self x xs)
      have h2 := ih (fun y hy => h y (List.mem_cons_of_mem x hy))
      simp only [List.cons_append, setUserAtFirst, if_neg h1, List.append_eq, h2]

theorem setUserAtFirst_cons_self (last : Turn) (rest : List Turn) (u : String) :
    setUserAtFirst (last :: rest) last.turn u =
      { last with user_text := some u } :: rest := by
  simp [setUserAtFirst]

/-- Closed form of `process_audio` on the expected path: the latest turn is
open, and no earlier turn shares its turn number. -/
theorem process_audio_open_conv (front : List Turn) (last : Turn) (u : String)
    (gem tts : Except String String)
    (hne : ∀ x ∈ front, x.turn ≠ last.turn)
    (hopen : last.user_text = none) (hai : optTruthy last.ai_text = true) :
    (process_audio (front ++ [last]) (.ok u) gem tts).conversation =
      front ++ [{ last with user_text := some u },
        newAiTurn (last.turn + 1) (generate_ai_text gem)] ∧
    (process_audio (front ++ [last]) (.ok u) gem tts).anomalyFlagged = false := by
  have hlast : (front ++ [last]).getLast? = some last := List.getLast?_concat front
  have hset : setUserAtFirst (front ++ [last]) last.turn u
      = front ++ [{ last with user_text := some u }] := by
    rw [setUserAtFirst_append_notMem front [last] last.turn u hne,
      setUserAtFirst_cons_self]
  cases tts with
  | error e => constructor <;> simp [process_audio, hlast, hopen, hai, hset]
  | ok b => constructor <;> simp [process_audio, hlast, hopen, hai, hset]

/-- Closed form of `process_audio` on the anomaly path: the latest turn is
not open (its `ai_text` is falsy or its `user_text` is already set). -/
theorem process_audio_anomaly_conv (front : List Turn) (last : Turn) (u : String)
    (gem tts : Except String String)
    (hclosed : (optTruthy last.ai_text && (last.user_text == none)) = false) :
    (process_audio (front ++ [last]) (.ok u) gem tts).conversation =
      (front ++ [last]) ++ [newAiTurn (last.turn + 1) (generate_ai_text gem)] ∧
    (process_audio (front ++ [last]) (.ok u) gem tts).anomalyFlagged = true := by
  have hlast : (front ++ [last]).getLast? = some last := List.getLast?_concat front
  cases tts with
  | error e => constructor <;> simp [process_audio, hlast, hclosed]
  | ok b => constructor <;> simp [process_audio, hlast, hclosed]

theorem goodConv_start (r : Except String String) : goodConv (start_call r) := by
  refine ⟨[], _, rfl, by simp, rfl, ?_⟩
  simp [optTruthy]
  exact gemini_opening_ne_empty r

theorem goodConv_step (conv : List Turn) (stt gem tts : Except String String)
    (h : goodConv conv) : goodConv (process_audio conv stt gem tts).conversation := by
  obtain ⟨front, last, rfl, hfront, hopen, hai⟩ := h
  cases stt with
  | error e =>
      refine ⟨front, last, ?_, hfront, hopen, hai⟩
      simp [process_audio]
  | ok u =>
      have hne : ∀ x ∈ front, x.turn ≠ last.turn := fun x hx => Nat.ne_of_lt (hfront x hx).2
      obtain ⟨hconv, -⟩ := process_audio_open_conv front last u gem tts hne hopen hai
      refine ⟨front ++ [{ last with user_text := some u }],
        newAiTurn (last.turn + 1) (generate_ai_text gem), ?_, ?_, rfl, ?_⟩
      · rw [hconv]; simp
      · intro x hx
        rcases List.mem_append.1 hx with hx | hx
        · exact ⟨(hfront x hx).1, Nat.lt_succ_of_lt (hfront x hx).2⟩
        · have hx' : x = { last with user_text := some u } := by simpa using hx
          subst hx'
          exact ⟨by simp, Nat.lt_succ_self _⟩
      · simp [optTruthy, newAiTurn]
        exact generate_ai_text_ne_empty gem

theorem reachable_goodConv (conv : List Turn) (h : Reachable conv) : goodConv conv := by
  induction h with
  | start r => exact goodConv_start r
  | step conv stt gem tts _ ih => exact goodConv_step conv stt gem tts ih

/-- C1: single-open-turn invariant. For every conversation state reachable
through `start_call` followed by any sequence of `process_audio` requests,
any position whose turn has `user_text` unset is the last position — so at
most one turn is open and it is the one with the highest index. -/
theorem C1_single_open_turn (conv : List Turn) (h : Reachable conv)
    (i : Nat) (hi : i < conv.length)
    (hopen : (conv.get ⟨i, hi⟩).user_text = none) : i + 1 = conv.length := by
  obtain ⟨front, last, heq, hfront, -, -⟩ := reachable_goodConv conv h
  subst heq
  by_contra hne
  have hlen : (front ++ [last]).length = front.length + 1 := by simp
  have hif : i < front.length := by
    rw [hlen] at hi hne
    omega
  have hmem : (front ++ [last]).get ⟨i, hi⟩ ∈ front := by
    rw [List.get_append_left front [last] hif]
    exact List.get_mem front i hif
  exact (hfront _ hmem).1 hopen

/-- C1 witness: the state right after `start_call` is reachable, its single
turn is open, and it is at the last position. -/
theorem C1_single_open_turn_witness :
    0 + 1 = (start_call (Except.ok "Hello there!")).length :=
  C1_single_open_turn (start_call (Except.ok "Hello there!"))
    (Reachable.start (Except.ok "Hello there!")) 0 (by decide) (by decide)

/-- C2: for every opener-provider outcome, the session created by
`start_call` contains exactly one turn, with index 0, `ai_text` set and
`user_text` unset. -/
theorem C2_start_call_single_turn (openerResp : Except String String) :
    (start_call openerResp).length = 1 ∧
    (start_call openerResp).get ⟨0, by simp [start_call]⟩ =
      { turn := 0, user_text := none,
        ai_text := some (gemini_opening_for_scenario openerResp) } :=
  ⟨rfl, rfl⟩

/-- C3: on a session whose latest turn is open (`ai_text` truthy,
`user_text` unset) and whose earlier turns carry smaller turn numbers (the
data model's uniqueness of indices), a successful transcription sets the
latest turn's `user_text` to the transcript and appends exactly one new
turn with index `previous + 1`, `ai_text` set and `user_text` unset; the
turn count grows by exactly one. -/
theorem C3_submit_user_turn_appends (front : List Turn) (last : Turn) (u : String)
    (gem tts : Except String String)
    (hne : ∀ x ∈ front, x.turn ≠ last.turn)
    (hopen : last.user_text = none) (hai : optTruthy last.ai_text = true) :
    (process_audio (front ++ [last]) (.ok u) gem tts).conversation =
      front ++ [{ last with user_text := some u },
        { turn := last.turn + 1, user_text := none,
          ai_text := some (generate_ai_text gem) }] ∧
    (process_audio (front ++ [last]) (.ok u) gem tts).conversation.length =
      (front ++ [last]).length + 1 := by
  obtain ⟨hconv, -⟩ := process_audio_open_conv front last u gem tts hne hopen hai
  refine ⟨hconv, ?_⟩
  rw [hconv]
  simp

/-- C3 witness at a concrete one-turn session. -/
theorem C3_submit_user_turn_appends_witness :
    (process_audio [{ turn := 0, user_text := none, ai_text := some "Hi!" }]
        (.ok "hello") (.error "boom") (.ok "bytes")).conversation =
      [{ turn := 0, user_text := some "hello", ai_text := some "Hi!" },
       { turn := 1, user_text := none,
         ai_text := some ("(Gemini error: " ++ "boom" ++ ")") }] ∧
    (process_audio [{ turn := 0, user_text := none, ai_text := some "Hi!" }]
        (.ok "hello") (.error "boom") (.ok "bytes")).conversation.length = 1 + 1 := by
  have h := C3_submit_user_turn_appends []
    { turn := 0, user_text := none, ai_text := some "Hi!" } "hello"
    (.error "boom") (.ok "bytes") (by simp) rfl (by decide)
  simpa [generate_ai_text] using h

/-- C4: when the latest turn is not open (its `user_text` is already set,
or its `ai_text` is falsy), `process_audio` leaves every existing turn
untouched, flags the anomaly, and still appends one new open AI turn,
completing the request when TTS succeeds. -/
theorem C4_anomaly_graceful_degradation (front : List Turn) (last : Turn)
    (u b : String) (gem : Except String String)
    (hclosed : (optTruthy last.ai_text && (last.user_text == none)) = false) :
    (process_audio (front ++ [last]) (.ok u) gem (.ok b)).conversation =
      (front ++ [last]) ++ [newAiTurn (last.turn + 1) (generate_ai_text gem)] ∧
    (process_audio (front ++ [last]) (.ok u) gem (.ok b)).anomalyFlagged = true ∧
    (process_audio (front ++ [last]) (.ok u) gem (.ok b)).result =
      .ok (u, generate_ai_text gem, b) := by
  obtain ⟨h1, h2⟩ := process_audio_anomaly_conv front last u gem (.ok b) hclosed
  refine ⟨h1, h2, ?_⟩
  have hlast : (front ++ [last]).getLast? = some last := List.getLast?_concat front
  simp [process_audio, hlast, hclosed]

/-- C4 witness: a one-turn session whose only turn is already closed. -/
theorem C4_anomaly_graceful_degradation_witness :
    (process_audio [{ turn := 0, user_text := some "done", ai_text := some "Hi!" }]
        (.ok "again") (.error "boom") (.ok "bytes")).conversation =
      [{ turn := 0, user_text := some "done", ai_text := some "Hi!" },
       newAiTurn 1 (generate_ai_text (.error "boom"))] ∧
    (process_audio [{ turn := 0, user_text := some "done", ai_text := some "Hi!" }]
        (.ok "again") (.error "boom") (.ok "bytes")).anomalyFlagged = true ∧
    (process_audio [{ turn := 0, user_text := some "done", ai_text := some "Hi!" }]
        (.ok "again") (.error "boom") (.ok "bytes")).result =
      .ok ("again", generate_ai_text (.error "boom"), "bytes") := by
  have h := C4_anomaly_graceful_degradation []
    { turn := 0, user_text := some "done", ai_text := some "Hi!" }
    "again" "bytes" (.error "boom") (by decide)
  simpa using h

/-- C8: if transcription fails, `process_audio` aborts before any state
mutation — the persisted conversation is unchanged, no anomaly is flagged,
and the request fails with the transcription error. -/
theorem C8_transcription_failure_no_mutation (conv : List Turn) (e : String)
    (gem tts : Except String String) :
    (process_audio conv (.error e) gem tts).conversation = conv ∧
    (process_audio conv (.error e) gem tts).anomalyFlagged = false ∧
    (process_audio conv (.error e) gem tts).result =
      .error (.transcriptionFailed e) :=
  ⟨rfl, rfl, rfl⟩

/-- C9: if speech synthesis fails, the request fails with a TTS error, but
the conversation persisted by the request is exactly the one the success
path would persist — the closed user turn and the new AI turn are kept. -/
theorem C9_tts_failure_keeps_text_state (front : List Turn) (last : Turn)
    (u e b : String) (gem : Except String String) :
    (process_audio (front ++ [last]) (.ok u) gem (.error e)).conversation =
      (process_audio (front ++ [last]) (.ok u) gem (.ok b)).conversation ∧
    (process_audio (front ++ [last]) (.ok u) gem (.error e)).result =
      .error (.ttsFailed e) := by
  have hlast : (front ++ [last]).getLast? = some last := List.getLast?_concat front
  constructor <;> simp [process_audio, hlast]

/-- C10: on an existing session whose conversation array is empty,
`process_audio` with a successful transcription fails on the unguarded
access to the last turn (and mutates nothing); on any session with at
least one turn this failure cannot occur. -/
theorem C10_empty_conversation_fails (u : String)
    (gem tts : Except String String) (front : List Turn) (last : Turn) :
    (process_audio [] (.ok u) gem tts).result = .error .indexError ∧
    (process_audio [] (.ok u) gem tts).conversation = [] ∧
    (process_audio (front ++ [last]) (.ok u) gem tts).result ≠
      .error .indexError := by
  have hlast : (front ++ [last]).getLast? = some last := List.getLast?_concat front
  refine ⟨rfl, rfl, ?_⟩
  cases tts with
  | error e => simp [process_audio, hlast]
  | ok b => simp [process_audio, hlast]

/-! ### Utterance extraction (`_extract_user_utterances`) -/

/-- The ordered sequence of non-empty stripped `user_text` values of a
conversation, oldest first: the utterances the extraction loop considers. -/
def userUtterances : List Turn → List String
  | [] => []
  | t :: rest =>
      let ut := (t.user_text.getD "").trim
      if ut = "" then userUtterances rest else ut :: userUtterances rest

/-- The inner `while` of `_extract_user_utterances`: pop utterances from
the front of `buf` (updating the running total) while the buffer is
non-empty and adding the next utterance would still exceed the cap. -/
def dropOldest (buf : List String) (total : Int) (need maxChars : Int) :
    List String × Int :=
  match buf with
  | [] => ([], total)
  | r :: rest =>
      if total + need > maxChars then
        dropOldest rest (total - (r.length : Int)) need maxChars
      else (r :: rest, total)

/-- The `for` loop of `_extract_user_utterances`: skip falsy (empty after
strip) `user_text` values; before appending an utterance that would push
the running total past `maxChars`, evict from the front of the buffer. -/
def extractLoop (ts : List Turn) (buf : List String) (total : Int)
    (maxChars : Int) : List String :=
  match ts with
  | [] => buf
  | t :: rest =>
      let ut := (t.user_text.getD "").trim
      if ut = "" then extractLoop rest buf total maxChars
      else
        let p := if total + (ut.length : Int) > maxChars then
            dropOldest buf total (ut.length : Int) maxChars
          else (buf, total)
        extractLoop rest (p.1 ++ [ut]) (p.2 + (ut.length : Int)) maxChars

/-- Model of `_extract_user_utterances(conversation_doc, max_chars=6000)`: run the
loop starting from an empty buffer and zero total, then join the retained
utterances as bullet lines (or return the fixed placeholder). -/
def extract_user_utterances (conv : List Turn) (maxChars : Int := 6000) : String :=
  let buf := extractLoop conv [] 0 maxChars
  if buf.isEmpty then "(no user speech captured)"
  else String.intercalate "\n" (buf.map (fun u => "- " ++ u))

theorem IsSuffix.append_same {α : Type} {l₁ l₂ : List α} (h : l₁ <:+ l₂)
    (l : List α) : l₁ ++ l <:+ l₂ ++ l := by
  obtain ⟨t, rfl⟩ := h
  exact ⟨t, (List.append_assoc t l₁ l).symm⟩

theorem dropOldest_suffix (buf : List String) (total need maxChars : Int) :
    (dropOldest buf total need maxChars).1 <:+ buf := by
  induction buf generalizing total with
  | nil => exact List.suffix_refl _
  | cons r rest ih =>
      simp only [dropOldest]
      split
      · exact (ih _).trans (List.suffix_cons r rest)
      · exact List.suffix_refl _

theorem extractLoop_suffix (ts : List Turn) :
    ∀ (buf acc : List String) (total maxChars : Int), buf <:+ acc →
      extractLoop ts buf total maxChars <:+ acc ++ userUtterances ts := by
  induction ts with
  | nil =>
      intro buf acc total maxChars h
      simpa [extractLoop, userUtterances] using h
  | cons t rest ih =>
      intro buf acc total maxChars h
      by_cases hut : (t.user_text.getD "").trim = ""
      · rw [show extractLoop (t :: rest) buf total maxChars
              = extractLoop rest buf total maxChars by
            simp [extractLoop, hut],
          show userUtterances (t :: rest) = userUtterances rest by
            simp [userUtterances, hut]]
        exact ih buf acc total maxChars h
      · rw [show userUtterances (t :: rest)
              = (t.user_text.getD "").trim :: userUtterances rest by
            simp [userUtterances, hut]]
        simp only [extractLoop, if_neg hut]
        set ut := (t.user_text.getD "").trim with hutdef
        set p := if total + (ut.length : Int) > maxChars then
            dropOldest buf total (ut.length : Int) maxChars
          else (buf, total) with hp
        have hbuf : p.1 <:+ buf := by
          rw [hp]
          split
          · exact dropOldest_suffix buf total (ut.length : Int) maxChars
          · exact List.suffix_refl _
        have hstep : p.1 ++ [ut] <:+ acc ++ [ut] :=
          IsSuffix.append_same (hbuf.trans h) [ut]
        have := ih (p.1 ++ [ut]) (acc ++ [ut]) (p.2 + (ut.length : Int)) maxChars hstep
        rw [List.append_assoc] at this
        simpa using this

/-- C5: the utterances retained by `_extract_user_utterances` under the
6000-character budget are a contiguous suffix (the most recent entries) of
the full oldest-first sequence of non-empty user utterances, and every
retained entry is non-empty. -/
theorem C5_extraction_keeps_recent_suffix (conv : List Turn) :
    extractLoop conv [] 0 6000 <:+ userUtterances conv ∧
    ∀ s ∈ extractLoop conv [] 0 6000, s ≠ "" := by
  have hsfx : extractLoop conv [] 0 6000 <:+ userUtterances conv := by
    simpa using extractLoop_suffix conv [] [] 0 6000 (List.suffix_refl [])
  refine ⟨hsfx, fun s hs => ?_⟩
  have hmem : s ∈ userUtterances conv := hsfx.subset hs
  clear hs hsfx
  induction conv with
  | nil => simp [userUtterances] at hmem
  | cons t rest ih =>
      by_cases hut : (t.user_text.getD "").trim = ""
      · rw [show userUtterances (t :: rest) = userUtterances rest by
          simp [userUtterances, hut]] at hmem
        exact ih hmem
      · rw [show userUtterances (t :: rest)
            = (t.user_text.getD "").trim :: userUtterances rest by
          simp [userUtterances, hut]] at hmem
        rcases List.mem_cons.1 hmem with rfl | hmem
        · exact hut
        · exact ih hmem

/-! ### Scenario-key resolution (`find_scenario_key_by_title`)

The catalog is modelled as an ordered association list from scenario key
to the entry's title (`val.get("title", "")`); the `random.choice` draw
over the key list is abstracted by a numeric `pick`. -/

/-- Model of `random.choice(list(SCENARIOS.keys())) if SCENARIOS else "General"`. -/
def catalogFallback : List (String × String) → Nat → String
  | [], _ => "General"
  | x :: xs, pick =>
      (((x :: xs).map Prod.fst)[pick % (x :: xs).length]?).getD "General"

/-- Python `str.lower()`, modelled characterwise (the same ASCII case
folding as `String.toLower`, but by structural recursion over the
character list so that it evaluates). -/
def pyLower (s : String) : String := ⟨s.data.map Char.toLower⟩

/-- The `for key, val in SCENARIOS.items()` loop: return the first key
whose title equals the given title case-insensitively. -/
def findMatchKey : List (String × String) → String → Option String
  | [], _ => none
  | (k, t) :: rest, title =>
      if pyLower t = pyLower title then some k else findMatchKey rest title

/-- Model of `find_scenario_key_by_title` (scenarios.py): falsy titles go straight
to the fallback; otherwise the first case-insensitive title match wins,
and a failed match falls back to a random key (or "General" when the
catalog is empty). -/
def find_scenario_key_by_title (scenarios : List (String × String))
    (pick : Nat) (title : String) : String :=
  if title = "" then catalogFallback scenarios pick
  else
    match findMatchKey scenarios title with
    | some k => k
    | none => catalogFallback scenarios pick

theorem catalogFallback_mem (scenarios : List (String × String)) (pick : Nat)
    (h : scenarios ≠ []) : catalogFallback scenarios pick ∈ scenarios.map Prod.fst := by
  match scenarios with
  | [] => exact absurd rfl h
  | x :: xs =>
      have hlt : pick % (x :: xs).length < ((x :: xs).map Prod.fst).length := by
        simp only [List.length_map]
        exact Nat.mod_lt _ (Nat.succ_pos _)
      simp only [catalogFallback, List.getElem?_eq_getElem hlt, Option.getD_some]
      exact List.getElem_mem hlt

theorem findMatchKey_isSome_of_match (scenarios : List (String × String))
    (title : String) (k t : String) (hmem : (k, t) ∈ scenarios)
    (hmatch : pyLower t = pyLower title) :
    ∃ k2, findMatchKey scenarios title = some k2 := by
  induction scenarios with
  | nil => simp at hmem
  | cons x rest ih =>
      by_cases hx : pyLower x.2 = pyLower title
      · exact ⟨x.1, by simp [findMatchKey, hx]⟩
      · rcases List.mem_cons.1 hmem with heq | hmem2
        · have hx2 : pyLower x.2 = pyLower title := by rw [← heq]; exact hmatch
          exact absurd hx2 hx
        · obtain ⟨k2, hk2⟩ := ih hmem2
          exact ⟨k2, by simp [findMatchKey, hx, hk2]⟩

theorem findMatchKey_spec (scenarios : List (String × String)) (title k2 : String)
    (h : findMatchKey scenarios title = some k2) :
    ∃ t2, (k2, t2) ∈ scenarios ∧ pyLower t2 = pyLower title := by
  induction scenarios with
  | nil => simp [findMatchKey] at h
  | cons x rest ih =>
      by_cases hx : pyLower x.2 = pyLower title
      · have hk : x.1 = k2 := by simpa [findMatchKey, hx] using h
        exact ⟨x.2, by simp [← hk], hx⟩
      · have h2 : findMatchKey rest title = some k2 := by
          simpa [findMatchKey, hx] using h
        obtain ⟨t2, hmem, hm⟩ := ih h2
        exact ⟨t2, List.mem_cons_of_mem x hmem, hm⟩

/-- C6 (amended): for every NON-empty title that case-insensitively equals
some catalog entry's title, a key whose title matches is returned; over a
non-empty catalog the returned key is always a key of the catalog; over an
empty catalog the fixed fallback "General" is returned. (An empty title is
routed to the random fallback before matching, which is what forces the
non-emptiness restriction — see the counterexample.) -/
theorem C6_scenario_key_resolution (scenarios : List (String × String))
    (pick : Nat) (title : String) :
    (title ≠ "" → ∀ k t, (k, t) ∈ scenarios → pyLower t = pyLower title →
      ∃ t2, (find_scenario_key_by_title scenarios pick title, t2) ∈ scenarios ∧
        pyLower t2 = pyLower title) ∧
    (scenarios ≠ [] →
      find_scenario_key_by_title scenarios pick title ∈ scenarios.map Prod.fst) ∧
    (scenarios = [] →
      find_scenario_key_by_title scenarios pick title = "General") := by
  refine ⟨?_, ?_, ?_⟩
  · intro hne k t hmem hmatch
    obtain ⟨k2, hk2⟩ := findMatchKey_isSome_of_match scenarios title k t hmem hmatch
    have hres : find_scenario_key_by_title scenarios pick title = k2 := by
      simp [find_scenario_key_by_title, hne, hk2]
    rw [hres]
    exact findMatchKey_spec scenarios title k2 hk2
  · intro hne
    simp only [find_scenario_key_by_title]
    split
    · exact catalogFallback_mem scenarios pick hne
    · cases hk : findMatchKey scenarios title with
      | none => simp only [hk]; exact catalogFallback_mem scenarios pick hne
      | some k2 =>
          simp only [hk]
          obtain ⟨t2, hmem, -⟩ := findMatchKey_spec scenarios title k2 hk
          exact List.mem_map.2 ⟨(k2, t2), hmem, rfl⟩
  · rintro rfl
    by_cases ht : title = "" <;> simp [find_scenario_key_by_title, ht, findMatchKey, catalogFallback]

/-- C6 witness: a case-insensitive match is returned; a non-empty catalog
always yields one of its keys; the empty catalog yields "General". -/
theorem C6_scenario_key_resolution_witness :
    (∃ t2, (find_scenario_key_by_title [("job_interview", "Job Interview")] 0
        "JOB INTERVIEW", t2) ∈ [("job_interview", "Job Interview")] ∧
      pyLower t2 = pyLower "JOB INTERVIEW") ∧
    find_scenario_key_by_title [("job_interview", "Job Interview")] 0
      "JOB INTERVIEW" ∈ ([("job_interview", "Job Interview")].map Prod.fst) ∧
    find_scenario_key_by_title ([] : List (String × String)) 0 "nothing" = "General" := by
  have h1 := C6_scenario_key_resolution [("job_interview", "Job Interview")] 0 "JOB INTERVIEW"
  have h2 := C6_scenario_key_resolution ([] : List (String × String)) 0 "nothing"
  exact ⟨h1.1 (by decide) "job_interview" "Job Interview" (by simp) (by decide),
    h1.2.1 (by simp), h2.2.2 rfl⟩

/-- C6 counterexample: over the catalog `[("A", ""), ("B", "x")]` the title
`""` case-insensitively equals entry "A"'s title, yet the function returns
"B" (for the random draw modelled by `pick = 1`), whose title does not
match: the falsy-title guard routes empty titles to the random fallback
before any matching is attempted. -/
theorem C6_counterexample :
    ("A", "") ∈ [("A", ""), ("B", "x")] ∧
    pyLower "" = pyLower "" ∧
    find_scenario_key_by_title [("A", ""), ("B", "x")] 1 "" = "B" ∧
    ("B" : String) ≠ "A" ∧ pyLower "x" ≠ pyLower "" := by
  refine ⟨by simp, rfl, by decide, by decide, by decide⟩

/-! ### End-of-call feedback handling (`end_call`) -/

/-- A JSON value, as far as the feedback handling inspects one. -/
inductive JVal
  | jnull
  | jbool (b : Bool)
  | jnum (n : Int)
  | jstr (s : String)
  | jarr (items : List JVal)
  | jobj (fields : List (String × JVal))

/-- First binding of a key in a JSON object's field list. -/
def lookupField : List (String × JVal) → String → Option JVal
  | [], _ => none
  | (k2, v) :: rest, k => if k2 = k then some v else lookupField rest k

/-- Python `d[k]` on a JSON value: key lookup on an object; a `KeyError`
or `TypeError` (non-object, missing key) is failure. -/
def jGet : JVal → String → Option JVal
  | .jobj fields, k => lookupField fields k
  | _, _ => none

/-- Model of the comprehension building `grammarErrors`: the
comprehension succeeds only when `gf` is an array of objects that each
carry both keys; iterating `null` or a non-array raises. -/
def grammarErrorsList : JVal → Option (List (JVal × JVal))
  | .jarr items => items.mapM (fun i => do
      let b ← jGet i "before"
      let a ← jGet i "after"
      pure (b, a))
  | _ => none

/-- Outcome of the `/end_call` tail: the value persisted as
`grammar_feedback`, and the 200 response payload
(user transcript, AI transcript, grammar errors, score) — `none` when
building the response raises. -/
structure EndCallOutcome where
  grammar_feedback : JVal
  response : Option (List (Option String) × List (Option String) ×
    List (JVal × JVal) × JVal)

/-- The feedback tail of `/end_call`, given the conversation array, the
result of `json.loads(feedback_text)` (`none` = the parse raised) and the
raw feedback text: a parse failure is wrapped as `{"raw": feedback_text}`;
the wrapped or parsed value is persisted; the response is then built via
the unguarded accesses `grammar_feedback["grammar_feedback"]` and
`grammar_feedback["success_percentage"]`. -/
def end_call (conv : List Turn) (parsed : Option JVal) (rawText : String) :
    EndCallOutcome :=
  let gf : JVal := match parsed with
    | some p => p
    | none => .jobj [("raw", .jstr rawText)]
  let response := do
    let gfl ← jGet gf "grammar_feedback"
    let errs ← grammarErrorsList gfl
    let score ← jGet gf "success_percentage"
    pure (conv.map Turn.user_text, conv.map Turn.ai_text, errs, score)
  { grammar_feedback := gf, response := response }

/-- C7: when the evaluation response does not parse as JSON, `end_call`
persists the diagnostic wrapper `{"raw": feedback_text}`, but building the
response then fails (a `KeyError` on "grammar_feedback"): the close
request errors out instead of completing successfully. -/
theorem C7_malformed_feedback_wrapped_but_request_fails
    (conv : List Turn) (rawText : String) :
    (end_call conv none rawText).grammar_feedback =
      .jobj [("raw", .jstr rawText)] ∧
    (end_call conv none rawText).response = none := by
  constructor
  · rfl
  · simp [end_call, jGet, lookupField]

end RingApp
